import Mathlib

/-!
Verification of the AMATS network-discovery / reconciliation engine and the
overdue-assignment notifier against their natural-language specification.

The development shallowly embeds the relevant Python source:
  - network_scanner/scanner.py  (NetworkScanner.scan, _ping_host,
    _get_mac_address, _scan_host, scan_and_update_assets)
  - asset_management/management/commands/scan_network.py (Command.handle loop)
  - asset_management/tasks.py   (check_overdue_assignments)

External effects (subprocess calls for ping / neighbor table, mail transport)
are modelled as explicit oracle parameters; machine state (the Django ORM
rows) is modelled as explicit lists threaded through the functions.
Timestamps are abstract naturals.  The IPv4 fragment of Python's
`ipaddress.ip_network` string parsing is embedded concretely (dotted-quad
address, decimal prefix length or dotted netmask/hostmask, host bits masked
off because the source passes strict=False); IPv6 inputs are out of scope of
this development.
-/

set_option maxRecDepth 65536

/-! ## Scanner data model -/

/-- One entry of the list returned by NetworkScanner.scan: the dictionary
built in _scan_host (scanner.py).  scan_and_update_assets later mutates
asset_found / asset_id / asset_tag on matched entries. -/
structure ScanResult where
  ip_address : String
  mac_address : Option String
  is_alive : Bool
  asset_found : Bool
  asset_id : Option Nat
  asset_tag : Option String
deriving DecidableEq, Repr

/-- Oracle for the external world touched by one probe: the return code of
the ping subprocess and the stdout of the neighbor-table commands.  An
`Except.error` value models the subprocess call raising (e.g. TimeoutExpired).
`windows` models platform.system(). -/
structure ProbeWorld where
  windows : Bool
  pingRun : String → Nat → Except String Nat
  ipNeighOut : String → Except String String
  arpNOut : String → Except String String
  arpAOut : String → Except String String

/-! ## IPv4 CIDR parsing (ipaddress.ip_network, strict=False; IPv4 fragment) -/

/-- Decimal value of a digit list (most significant first). -/
def digitsVal (cs : List Char) : Nat :=
  cs.foldl (fun acc c => acc * 10 + (c.toNat - 48)) 0

/-- str.split(sep) on a character list (Python semantics: the empty string
splits to one empty field). -/
def splitOnChar (sep : Char) : List Char → List (List Char)
  | [] => [[]]
  | c :: rest =>
    let r := splitOnChar sep rest
    if c == sep then [] :: r
    else
      match r with
      | [] => [[c]]
      | g :: gs => (c :: g) :: gs

/-- One dotted-quad octet, as validated by ipaddress._parse_octet: non-empty,
at most 3 ASCII digits, no ambiguous leading zero, value at most 255. -/
def parseOctet (cs : List Char) : Option Nat :=
  if cs.isEmpty then none
  else if ¬ cs.all Char.isDigit then none
  else if 3 < cs.length then none
  else if 1 < cs.length ∧ cs.head? = some ('0') then none
  else if 255 < digitsVal cs then none
  else some (digitsVal cs)

/-- Dotted-quad IPv4 address (as a character list) to its 32-bit value. -/
def parseIPv4 (cs : List Char) : Option Nat :=
  match splitOnChar ('.') cs with
  | [a, b, c, d] =>
    match parseOctet a, parseOctet b, parseOctet c, parseOctet d with
    | some x, some y, some z, some w => some (((x * 256 + y) * 256 + z) * 256 + w)
    | _, _, _, _ => none
  | _ => none

/-- The netmask with `p` leading one bits. -/
def prefixMask (p : Nat) : Nat :=
  2 ^ 32 - 2 ^ (32 - p)

/-- Recover a prefix length from a contiguous netmask value, if it is one. -/
def maskToPrefixLen (m : Nat) : Option Nat :=
  (List.range 33).find? (fun p => m == prefixMask p)

/-- The "/..." part after the slash: a decimal prefix length (at most 32), or
a dotted netmask, or a dotted hostmask — mirroring ipaddress._make_netmask
for string arguments. -/
def parsePrefixLen (cs : List Char) : Option Nat :=
  if ¬ cs.isEmpty ∧ cs.all Char.isDigit then
    if digitsVal cs ≤ 32 then some (digitsVal cs) else none
  else
    match parseIPv4 cs with
    | none => none
    | some m =>
      match maskToPrefixLen m with
      | some p => some p
      | none => maskToPrefixLen (m ^^^ (2 ^ 32 - 1))

/-- An IPv4 network: masked base address and prefix length. -/
structure IPv4Net where
  base : Nat
  prefixLen : Nat
deriving DecidableEq, Repr

/-- ipaddress.ip_network(s, strict=False) on the IPv4 string fragment:
"a.b.c.d" (treated as /32) or "a.b.c.d/len" or "a.b.c.d/mask"; host bits are
masked off rather than rejected because the source passes strict=False.
Anything else raises ValueError in Python, modelled as `none`. -/
def ip_network (s : String) : Option IPv4Net :=
  match splitOnChar ('/') s.data with
  | [addr] =>
    match parseIPv4 addr with
    | some a => some { base := a, prefixLen := 32 }
    | none => none
  | [addr, mask] =>
    match parseIPv4 addr, parsePrefixLen mask with
    | some a, some p => some { base := (a / 2 ^ (32 - p)) * 2 ^ (32 - p), prefixLen := p }
    | _, _ => none
  | _ => none

/-- network.hosts() for IPv4 (cpython semantics): all addresses strictly
between the network and broadcast addresses; for a /31 both addresses; for a
/32 the single address. -/
def hostsList (net : IPv4Net) : List Nat :=
  if net.prefixLen = 32 then [net.base]
  else if net.prefixLen = 31 then [net.base, net.base + 1]
  else (List.range (2 ^ (32 - net.prefixLen) - 2)).map (fun i => net.base + 1 + i)

/-- str(host) on an IPv4 address value. -/
def ipToString (n : Nat) : String :=
  toString (n / 2 ^ 24 % 256) ++ (".") ++ toString (n / 2 ^ 16 % 256) ++ (".") ++
    toString (n / 2 ^ 8 % 256) ++ (".") ++ toString (n % 256)

/-! ## Host probing (_ping_host, _get_mac_address, _scan_host) -/

/-- _ping_host: run the ping subprocess; alive iff return code 0; the bare
except clause folds any exception into False. -/
def ping_host (world : ProbeWorld) (timeout : Nat) (ip : String) : Bool :=
  match world.pingRun ip timeout with
  | .ok rc => rc == 0
  | .error _ => false

/-- Lower-case hex digit class [0-9a-f]. -/
def isHexLower (c : Char) : Bool :=
  c.isDigit || (('a') ≤ c && c ≤ ('f'))

/-- Mixed-case hex digit class [0-9A-Fa-f]. -/
def isHexAny (c : Char) : Bool :=
  c.isDigit || (('a') ≤ c && c ≤ ('f')) || (('A') ≤ c && c ≤ ('F'))

/-- Whether the list starts with a 17-character hh:hh:hh:hh:hh:hh token
(hex class and separator given). -/
def macShape (hex : Char → Bool) (sep : Char) : List Char → Bool
  | c0 :: c1 :: s1 :: c2 :: c3 :: s2 :: c4 :: c5 :: s3 :: c6 :: c7 :: s4 ::
      c8 :: c9 :: s5 :: c10 :: c11 :: _ =>
    hex c0 && hex c1 && s1 == sep && hex c2 && hex c3 && s2 == sep &&
    hex c4 && hex c5 && s3 == sep && hex c6 && hex c7 && s4 == sep &&
    hex c8 && hex c9 && s5 == sep && hex c10 && hex c11
  | _ => false

/-- re.search for a bare MAC pattern: first position whose suffix starts with
a MAC token. -/
def findMacToken (hex : Char → Bool) (sep : Char) : List Char → Option String
  | [] => none
  | c :: cs =>
    if macShape hex sep (c :: cs) then some (String.mk ((c :: cs).take 17))
    else findMacToken hex sep cs

/-- re.search for the pattern "lladdr hh:hh:hh:hh:hh:hh" (lower-case input):
first position where the full pattern matches. -/
def searchLladdrMac : List Char → Option String
  | [] => none
  | c :: cs =>
    match c :: cs with
    | 'l' :: 'l' :: 'a' :: 'd' :: 'd' :: 'r' :: ' ' :: rest =>
      if macShape isHexLower (':') rest then some (String.mk (rest.take 17))
      else searchLladdrMac cs
    | _ => searchLladdrMac cs

/-- _get_mac_address: query the ARP / neighbor table and parse out the MAC;
the surrounding try/except turns any subprocess failure into None.  On the
POSIX path: try "ip neigh show", fall back to "arp -n". -/
def get_mac_address (world : ProbeWorld) (ip : String) : Option String :=
  if world.windows then
    match world.arpAOut ip with
    | .error _ => none
    | .ok out =>
      match findMacToken isHexAny ('-') out.data with
      | some m =>
        some ((String.map (fun c => if c == ('-') then (':') else c) m).toUpper)
      | none => none
  else
    match world.ipNeighOut ip with
    | .error _ => none
    | .ok out =>
      match searchLladdrMac out.toLower.data with
      | some m => some m.toUpper
      | none =>
        match world.arpNOut ip with
        | .error _ => none
        | .ok out2 =>
          match findMacToken isHexAny (':') out2.data with
          | some m => some m.toUpper
          | none => none

/-- _scan_host: ping, and only if alive resolve the MAC and build the result
dictionary; a dead host yields None. -/
def scanHost (world : ProbeWorld) (timeout : Nat) (ip : String) : Option ScanResult :=
  if ping_host world timeout ip then
    some { ip_address := ip, mac_address := get_mac_address world ip, is_alive := true,
           asset_found := false, asset_id := none, asset_tag := none }
  else none

/-- NetworkScanner.scan: parse the subnet, enumerate hosts() capped at the
first 254, probe each in a sequential loop, collect the truthy results; the
enclosing try/except turns any exception (notably the ValueError from a
malformed subnet) into an empty result list. -/
def NetworkScanner.scan (subnet : String) (timeout : Nat) (world : ProbeWorld) :
    List ScanResult :=
  match ip_network subnet with
  | none => []
  | some net => (((hostsList net).take 254).map ipToString).filterMap (scanHost world timeout)

/-- The host addresses scan probes: hosts() truncated to the first 254 (the
`hosts` local of NetworkScanner.scan); empty when parsing fails. -/
def probedHosts (subnet : String) : List Nat :=
  match ip_network subnet with
  | none => []
  | some net => (hostsList net).take 254

/-! ## Probe scheduling trace (for the concurrency claim) -/

/-- Begin/end events of individual host probes. -/
inductive ProbeEvent where
  | start (ip : Nat)
  | finish (ip : Nat)
deriving DecidableEq, Repr

/-- The schedule of NetworkScanner.scan: the loop body calls _scan_host and
waits for it to complete before the next iteration begins, so each probe's
start is immediately followed by its finish. -/
def scanTrace (subnet : String) : List ProbeEvent :=
  (probedHosts subnet).flatMap (fun h => [ProbeEvent.start h, ProbeEvent.finish h])

/-- Number of probes in flight after each event, starting from `n`. -/
def inFlightList (n : Nat) : List ProbeEvent → List Nat
  | [] => []
  | ProbeEvent.start _ :: es => (n + 1) :: inFlightList (n + 1) es
  | ProbeEvent.finish _ :: es => (n - 1) :: inFlightList (n - 1) es

/-- Peak number of simultaneously in-flight probes over a trace. -/
def maxInFlight (es : List ProbeEvent) : Nat :=
  (inFlightList 0 es).foldl max 0

/-- Wall-clock cost of a scan under a unit-cost model where each probe blocks
for the per-host timeout: the sequential loop pays the sum over all probed
hosts. -/
def scanCost (subnet : String) (timeout : Nat) : Nat :=
  (probedHosts subnet).length * timeout

/-! ## Spec-side definitions (for refinement comparisons only) -/

/-- Modelled from the spec: "enumerates all usable host addresses in the
block (network and broadcast addresses excluded)" — the addresses strictly
between the network address and the broadcast address, for every prefix
length. -/
def usableHostsSpec (net : IPv4Net) : List Nat :=
  (List.range (2 ^ (32 - net.prefixLen) - 2)).map (fun i => net.base + 1 + i)

/-- Modelled from the spec: the enumeration the spec claims Scan performs —
usable hosts excluding network/broadcast, truncated to the first 254. -/
def specScanEnumeration (subnet : String) : List Nat :=
  match ip_network subnet with
  | none => []
  | some net => (usableHostsSpec net).take 254

/-- Modelled from the spec: "Malformed CIDR input is a caller-visible error
(InvalidSubnet), checked before any probing begins" — a Scan that surfaces
the parse failure to its caller instead of swallowing it. -/
def scanSpecInvalidSubnet (subnet : String) (timeout : Nat) (world : ProbeWorld) :
    Except String (List ScanResult) :=
  match ip_network subnet with
  | none => .error ("InvalidSubnet")
  | some net =>
    .ok ((((hostsList net).take 254).map ipToString).filterMap (scanHost world timeout))

/-! ## Asset registry and reconciliation (scan_and_update_assets) -/

/-- The fields of asset_management.models.Asset that the reconciliation code
reads or writes.  `status` holds one of the STATUS_CHOICES strings
("AVAILABLE", "ASSIGNED", "MISSING", "MAINTENANCE", "RETIRED"). -/
structure Asset where
  id : Nat
  asset_tag : String
  mac_address : Option String
  ip_address : Option String
  status : String
  location : String
  network_last_seen : Option Nat
deriving DecidableEq, Repr

/-- Case-insensitive string equality (character-wise lower-casing, which
agrees with str.lower() on the ASCII strings involved here). -/
def iexactEq (s t : String) : Bool :=
  s.data.map Char.toLower == t.data.map Char.toLower

/-- Django's mac_address__iexact=m on one row: the stored MAC is non-null and
equal to m up to case. -/
def macIexact (a : Asset) (m : String) : Bool :=
  match a.mac_address with
  | some s => iexactEq s m
  | none => false

/-- Outcome of Asset.objects.get(mac_address__iexact=m). -/
inductive GetResult where
  | found (a : Asset)
  | doesNotExist
  | multipleReturned
deriving Repr

/-- Asset.objects.get(mac_address__iexact=m): exactly one matching row, or
the DoesNotExist / MultipleObjectsReturned exceptions. -/
def getByMacIexact (assets : List Asset) (m : String) : GetResult :=
  match assets.filter (fun a => macIexact a m) with
  | [] => GetResult.doesNotExist
  | [a] => GetResult.found a
  | _ :: _ :: _ => GetResult.multipleReturned

/-- Field updates applied to a matched asset by scan_and_update_assets, in
source order: last-seen := now; if MISSING, the status flips to AVAILABLE and
location is overwritten with the detection marker; ip := observed address. -/
def reconUpdate (a : Asset) (r : ScanResult) (now : Nat) : Asset :=
  { a with
    network_last_seen := some now
    status := if a.status == ("MISSING") then ("AVAILABLE") else a.status
    location := if a.status == ("MISSING") then ("Detected on network: ") ++ r.ip_address
                else a.location
    ip_address := some r.ip_address }

/-- Mutable loop state of scan_and_update_assets: the asset rows plus the
`matched` and `found_missing` counters and the (annotated) result list. -/
structure ReconState where
  assets : List Asset
  matched : Nat
  found_missing : Nat
  results : List ScanResult
deriving Repr

/-- One iteration of the scan_and_update_assets loop.  A result whose
mac_address is falsy (None or empty) is skipped; a DoesNotExist lookup is
passed over; a MultipleObjectsReturned lookup is uncaught and propagates. -/
def reconStep (now : Nat) (st : ReconState) (r : ScanResult) : Except String ReconState :=
  match r.mac_address with
  | none => .ok { st with results := st.results ++ [r] }
  | some s =>
    if s.isEmpty then .ok { st with results := st.results ++ [r] }
    else
      match getByMacIexact st.assets s with
      | GetResult.multipleReturned => .error ("MultipleObjectsReturned")
      | GetResult.doesNotExist => .ok { st with results := st.results ++ [r] }
      | GetResult.found a =>
        let a' := reconUpdate a r now
        .ok { assets := st.assets.map (fun b => if b.id == a.id then a' else b)
              matched := st.matched + 1
              found_missing := st.found_missing + (if a.status == ("MISSING") then 1 else 0)
              results := st.results ++
                [{ r with asset_found := true, asset_id := some a.id,
                          asset_tag := some a.asset_tag }] }

/-- The whole result loop of scan_and_update_assets. -/
def reconLoop (now : Nat) (st : ReconState) : List ScanResult → Except String ReconState
  | [] => .ok st
  | r :: rs =>
    match reconStep now st r with
    | .error e => .error e
    | .ok st' => reconLoop now st' rs

/-- The value of scan_and_update_assets: summary dictionary plus the updated
registry rows (the Django-side effect of the asset.save() calls). -/
structure ReconOutcome where
  assets : List Asset
  scanned : Nat
  matched : Nat
  missing_found : Nat
  results : List ScanResult
deriving Repr

/-- The reconciliation pass of scan_and_update_assets, applied to a given
ScanResult list (the part of the function after scanner.scan() returns). -/
def reconcileResults (assets : List Asset) (results : List ScanResult) (now : Nat) :
    Except String ReconOutcome :=
  match reconLoop now { assets := assets, matched := 0, found_missing := 0, results := [] }
      results with
  | .error e => .error e
  | .ok st =>
    .ok { assets := st.assets, scanned := st.results.length, matched := st.matched,
          missing_found := st.found_missing, results := st.results }

/-- scan_and_update_assets itself: scan the subnet (default timeout 1) and
reconcile the results against the registry. -/
def scan_and_update_assets (subnet : String) (world : ProbeWorld) (assets : List Asset)
    (now : Nat) : Except String ReconOutcome :=
  reconcileResults assets (NetworkScanner.scan subnet 1 world) now

/-! ## Pointwise characterization of one reconciliation pass -/

/-- Whether one scan result's (truthy) hardware address matches an asset
case-insensitively. -/
def resultMatches (a : Asset) (r : ScanResult) : Bool :=
  match r.mac_address with
  | some s => !s.isEmpty && macIexact a s
  | none => false

/-- Whether some result of the pass matches the asset. -/
def matchedBy (results : List ScanResult) (a : Asset) : Bool :=
  results.any (fun r => resultMatches a r)

/-- Pointwise effect of processing one scan result on one asset. -/
def applyStep (r : ScanResult) (now : Nat) (a : Asset) : Asset :=
  if resultMatches a r then reconUpdate a r now else a

/-- Pointwise effect of a whole pass on one asset: the per-result updates
applied in order. -/
def applyResults (results : List ScanResult) (now : Nat) (a : Asset) : Asset :=
  results.foldl (fun b r => applyStep r now b) a

/-- Pairwise distinctness (up to case) of the stored hardware addresses — the
data-model invariant "hardware address, when set, is unique across all
assets". -/
def macClash (a b : Asset) : Bool :=
  match a.mac_address, b.mac_address with
  | some s, some t => iexactEq s t
  | _, _ => false

/-- No two registry rows share a (set) hardware address, up to case. -/
def macsDistinct : List Asset → Bool
  | [] => true
  | a :: l => l.all (fun b => !macClash a b) && macsDistinct l

/-! ## The scan_network management command loop (Command.handle) -/

/-- Field updates applied to a matched asset by the scan_network command, in
source order: last-seen and ip first, then the MISSING → AVAILABLE flip with
its "Auto-detected" location marker. -/
def handleUpdate (a : Asset) (r : ScanResult) (now : Nat) : Asset :=
  { a with
    network_last_seen := some now
    ip_address := some r.ip_address
    status := if a.status == ("MISSING") then ("AVAILABLE") else a.status
    location := if a.status == ("MISSING") then ("Auto-detected: ") ++ r.ip_address
                else a.location }

/-- Counters of the Command.handle loop: found_count counts unknown devices
(present MAC, no matching asset), matched_count the matched ones,
missing_found the MISSING → AVAILABLE transitions. -/
structure HandleState where
  assets : List Asset
  found_count : Nat
  matched_count : Nat
  missing_found : Nat
deriving Repr

/-- One iteration of the Command.handle result loop. -/
def handleStep (now : Nat) (st : HandleState) (r : ScanResult) : Except String HandleState :=
  match r.mac_address with
  | none => .ok st
  | some s =>
    if s.isEmpty then .ok st
    else
      match getByMacIexact st.assets s with
      | GetResult.multipleReturned => .error ("MultipleObjectsReturned")
      | GetResult.doesNotExist => .ok { st with found_count := st.found_count + 1 }
      | GetResult.found a =>
        let a' := handleUpdate a r now
        .ok { assets := st.assets.map (fun b => if b.id == a.id then a' else b)
              found_count := st.found_count
              matched_count := st.matched_count + 1
              missing_found := st.missing_found +
                (if a.status == ("MISSING") then 1 else 0) }

/-- The whole Command.handle result loop. -/
def handleLoop (now : Nat) (st : HandleState) : List ScanResult → Except String HandleState
  | [] => .ok st
  | r :: rs =>
    match handleStep now st r with
    | .error e => .error e
    | .ok st' => handleLoop now st' rs

/-- The Command.handle reconciliation pass over a result list. -/
def handleScan (assets : List Asset) (results : List ScanResult) (now : Nat) :
    Except String HandleState :=
  handleLoop now { assets := assets, found_count := 0, matched_count := 0, missing_found := 0 }
    results

/-! ## Overdue notifier (check_overdue_assignments, tasks.py) -/

/-- The custodian fields the task reads: username, full name, email. -/
structure OverdueUser where
  username : String
  full_name : String
  email : String
deriving DecidableEq, Repr

/-- One AssetAssignment row joined with its asset and custodians.  In the
database schema assigned_to and assigned_by are non-nullable foreign keys;
they are optionals here to mirror the task's own truthiness guards. -/
structure Assignment where
  id : Nat
  asset_tag : String
  asset_name : String
  assigned_to : Option OverdueUser
  assigned_by : Option OverdueUser
  date_due : Option Nat
  date_returned : Option Nat
deriving DecidableEq, Repr

/-- A created Notification row: recipient username, message, link, level
(one of "ALERT"/"WARNING"/"INFO"). -/
structure NotificationRec where
  user : String
  message : String
  link : String
  level : String
deriving DecidableEq, Repr

/-- A created AuditLog row (the task always sets user=None, action='EXPORT',
model_name='AssetAssignment'). -/
structure AuditRec where
  action : String
  model_name : String
  object_id : String
  description : String
deriving DecidableEq, Repr

/-- Accumulated task state: created rows plus the two counters. -/
structure TaskState where
  notifications : List NotificationRec
  audits : List AuditRec
  notifications_created : Nat
  email_notifications : Nat
deriving DecidableEq, Repr

/-- Environment of one task run: the EMAIL_HOST setting ("" when mail is not
configured) and the mail-transport oracle — `sendResult id = some msg` means
send_mail raises with message `msg` for that assignment's email,
`none` means delivery succeeds. -/
structure OverdueEnv where
  emailHost : String
  sendResult : Nat → Option String

/-- What celery's Task.retry(exc=...) raises: a Retry exception while
self.request.retries is below max_retries, MaxRetriesExceededError once the
bound is reached. -/
inductive RetryOutcome where
  | retryExc
  | maxRetriesExceeded
deriving DecidableEq, Repr

/-- self.retry under max_retries=3. -/
def selfRetry (retries : Nat) : RetryOutcome :=
  if retries < 3 then RetryOutcome.retryExc else RetryOutcome.maxRetriesExceeded

/-- assigned_to.get_full_name() or assigned_to.username. -/
def displayName (u : OverdueUser) : String :=
  if u.full_name == ("") then u.username else u.full_name

/-- str() of an optional timestamp, as f-string interpolation renders it. -/
def optStr : Option Nat → String
  | some n => toString n
  | none => "None"

/-- The message body built for one overdue assignment. -/
def overdueMessage (a : Assignment) (holder : OverdueUser) : String :=
  ("Asset ") ++ a.asset_name ++ (" (") ++ a.asset_tag ++ (") is overdue.\n") ++
  ("Assigned to: ") ++ displayName holder ++ ("\n") ++
  ("Due date: ") ++ optStr a.date_due ++ ("\n") ++
  ("Please follow up.")

/-- The '/assignments/{id}/' link. -/
def assignmentLink (a : Assignment) : String :=
  ("/assignments/") ++ toString a.id ++ ("/")

/-- The audit row for the per-assignment catch-all handler
(`except Exception as e`). -/
def unexpectedAudit (a : Assignment) (excMsg : String) : AuditRec :=
  { action := "EXPORT", model_name := "AssetAssignment", object_id := toString a.id,
    description := ("Unexpected error in overdue task: ") ++ excMsg }

/-- The audit row of the MaxRetriesExceededError handler. -/
def exhaustedAudit (a : Assignment) (excMsg : String) : AuditRec :=
  { action := "EXPORT", model_name := "AssetAssignment", object_id := toString a.id,
    description := ("Failed to send overdue email after retries: ") ++ excMsg }

/-- The per-assignment "Created N notifications" audit row; N is the task's
cumulative notifications_created counter at that point. -/
def createdAudit (st : TaskState) (a : Assignment) : TaskState :=
  { st with audits := st.audits ++
      [{ action := "EXPORT", model_name := "AssetAssignment", object_id := toString a.id,
         description := ("Created ") ++ toString st.notifications_created ++
           (" notifications for overdue assignment ") ++ toString a.id }] }

/-- Create one Notification row and extend the recipient list when the user
has an email address. -/
def notifyUser (st : TaskState) (recipients : List String) (u : OverdueUser)
    (message link level : String) : TaskState × List String :=
  ({ st with
      notifications := st.notifications ++
        [{ user := u.username, message := message, link := link, level := level }],
      notifications_created := st.notifications_created + 1 },
   if u.email == ("") then recipients else recipients ++ [u.email])

/-- One iteration of the check_overdue_assignments loop, at a given
self.request.retries value.  Control flow mirrors the source: building the
message dereferences assigned_to, so a missing holder raises and is caught by
the per-assignment except Exception; on a send_mail failure the code calls
self.retry inside a try that catches only MaxRetriesExceededError, so the
Retry raised while retries remain escapes to that same per-assignment
catch-all (and the "Created N notifications" audit row is skipped). -/
def processAssignment (env : OverdueEnv) (retries : Nat) (st : TaskState)
    (a : Assignment) : TaskState :=
  match a.assigned_to with
  | none =>
    { st with audits := st.audits ++ [unexpectedAudit a ("AttributeError")] }
  | some holder =>
    let message := overdueMessage a holder
    let link := assignmentLink a
    let step1 :=
      match a.assigned_by with
      | some u => notifyUser st [] u message link ("ALERT")
      | none => (st, [])
    let step2 := notifyUser step1.1 step1.2 holder message link ("WARNING")
    let st2 := step2.1
    let recipients := step2.2
    if recipients.isEmpty || env.emailHost == ("") then
      createdAudit st2 a
    else
      match env.sendResult a.id with
      | none =>
        createdAudit { st2 with email_notifications := st2.email_notifications + 1 } a
      | some excMsg =>
        match selfRetry retries with
        | RetryOutcome.retryExc =>
          { st2 with audits := st2.audits ++ [unexpectedAudit a ("Retry")] }
        | RetryOutcome.maxRetriesExceeded =>
          createdAudit { st2 with audits := st2.audits ++ [exhaustedAudit a excMsg] } a
  
/-- The overdue queryset filter: date_due set and in the past, date_returned
unset. -/
def isOverdue (now : Nat) (a : Assignment) : Bool :=
  (match a.date_due with
   | some d => d < now
   | none => false) && a.date_returned == none

/-- The aggregate dictionary the task returns, plus the created rows. -/
structure TaskResult where
  overdue_count : Nat
  notifications_created : Nat
  email_notifications : Nat
  notifications : List NotificationRec
  audits : List AuditRec
deriving DecidableEq, Repr

/-- One execution of the task body at a given self.request.retries value. -/
def taskRun (env : OverdueEnv) (assignments : List Assignment) (now : Nat)
    (retries : Nat) : TaskResult :=
  let overdue := assignments.filter (isOverdue now)
  let final := overdue.foldl (processAssignment env retries)
    ⟨[], [], 0, 0⟩
  { overdue_count := overdue.length,
    notifications_created := final.notifications_created,
    email_notifications := final.email_notifications,
    notifications := final.notifications,
    audits := final.audits }

/-- check_overdue_assignments as it executes: the worker invokes the task
with self.request.retries = 0, and re-invokes it with a higher count only
when a celery Retry exception escapes the task body — which can never happen
here because every per-assignment exception (the Retry included) is caught by
the loop's own except Exception handler, so the body always returns
normally. -/
def check_overdue_assignments (env : OverdueEnv) (assignments : List Assignment)
    (now : Nat) : TaskResult :=
  taskRun env assignments now 0

/-! ## Concrete instances used by witnesses and counterexamples -/

/-- A quiet network: every ping exits 1, the neighbor tables are empty. -/
def worldAllDead : ProbeWorld :=
  { windows := false
    pingRun := fun _ _ => .ok 1
    ipNeighOut := fun _ => .ok ("")
    arpNOut := fun _ => .ok ("")
    arpAOut := fun _ => .ok ("") }

/-- A hostile world: every external call raises. -/
def worldAllError : ProbeWorld :=
  { windows := false
    pingRun := fun _ _ => .error ("TimeoutExpired")
    ipNeighOut := fun _ => .error ("FileNotFoundError")
    arpNOut := fun _ => .error ("FileNotFoundError")
    arpAOut := fun _ => .error ("FileNotFoundError") }

/-- A registry row that is currently MISSING. -/
def assetMissing : Asset :=
  { id := 1, asset_tag := "IT-001", mac_address := some ("AA:BB:CC:DD:EE:01")
    ip_address := none, status := "MISSING", location := "Storage room"
    network_last_seen := none }

/-- A registry row that is under MAINTENANCE. -/
def assetMaint : Asset :=
  { id := 2, asset_tag := "IT-002", mac_address := some ("AA:BB:CC:DD:EE:02")
    ip_address := some ("192.168.1.9"), status := "MAINTENANCE", location := "Lab bench"
    network_last_seen := some 3 }

/-- A scan result whose MAC matches assetMissing up to case. -/
def resultHitMissing : ScanResult :=
  { ip_address := "192.168.1.50", mac_address := some ("aa:bb:cc:dd:ee:01")
    is_alive := true, asset_found := false, asset_id := none, asset_tag := none }

/-- A scan result whose MAC matches assetMaint up to case. -/
def resultHitMaint : ScanResult :=
  { ip_address := "192.168.1.60", mac_address := some ("aa:bb:cc:dd:ee:02")
    is_alive := true, asset_found := false, asset_id := none, asset_tag := none }

/-- A scan result whose MAC matches no registry row. -/
def resultUnknown : ScanResult :=
  { ip_address := "192.168.1.70", mac_address := some ("11:22:33:44:55:66")
    is_alive := true, asset_found := false, asset_id := none, asset_tag := none }

/-- The manager who issued the assignment. -/
def userManager : OverdueUser :=
  { username := "mgr", full_name := "Mae Manager", email := "mgr@example.com" }

/-- The custodian holding the asset. -/
def userHolder : OverdueUser :=
  { username := "holder", full_name := "", email := "holder@example.com" }

/-- An overdue open assignment (due at 5, never returned). -/
def assignmentOne : Assignment :=
  { id := 1, asset_tag := "IT-001", asset_name := "Laptop"
    assigned_to := some userHolder, assigned_by := some userManager
    date_due := some 5, date_returned := none }

/-- A second overdue open assignment. -/
def assignmentTwo : Assignment :=
  { id := 2, asset_tag := "IT-002", asset_name := "Projector"
    assigned_to := some userHolder, assigned_by := some userManager
    date_due := some 7, date_returned := none }

/-- Mail configured, and delivery raises on every attempt. -/
def envFailMail : OverdueEnv :=
  { emailHost := "smtp.example.com", sendResult := fun _ => some ("SMTP connection refused") }

/-- Mail not configured. -/
def envNoMail : OverdueEnv :=
  { emailHost := "", sendResult := fun _ => none }

/-! # Helper lemmas -/

theorem probedHosts_eq (s : String) (net : IPv4Net) (h : ip_network s = some net) :
    probedHosts s = (hostsList net).take 254 := by
  unfold probedHosts; rw [h]

theorem inFlight_le_one (hs : List Nat) :
    ∀ x ∈ inFlightList 0 (hs.flatMap fun h => [ProbeEvent.start h, ProbeEvent.finish h]),
      x ≤ 1 := by
  induction hs with
  | nil => intro x hx; simp [inFlightList] at hx
  | cons h t ih =>
    intro x hx
    simp only [List.flatMap_cons, List.cons_append, List.nil_append, inFlightList,
      List.mem_cons] at hx
    rcases hx with rfl | hx
    · exact le_refl 1
    rcases hx with rfl | hx
    · omega
    · exact ih x hx

theorem foldl_max_le_one (l : List Nat) (h : ∀ x ∈ l, x ≤ 1) :
    ∀ n, n ≤ 1 → l.foldl max n ≤ 1 := by
  induction l with
  | nil => intro n hn; simpa [List.foldl]
  | cons x t ih =>
    intro n hn
    simp only [List.foldl_cons]
    refine ih (fun y hy => h y (List.mem_cons_of_mem _ hy)) (max n x) ?_
    exact Nat.max_le.mpr ⟨hn, h x (List.mem_cons_self _ _)⟩

/-! # Claim C2 (corrected) -/

/-- C2 counterexample: the claim says a malformed CIDR string makes Scan fail
with a caller-visible InvalidSubnet error, but NetworkScanner.scan on
"not-a-subnet" returns the ordinary value [] — only the spec-modelled variant
surfaces the error. -/
theorem C2_counterexample :
    NetworkScanner.scan ("not-a-subnet") 1 worldAllDead = [] ∧
    scanSpecInvalidSubnet ("not-a-subnet") 1 worldAllDead =
      Except.error ("InvalidSubnet") := by
  exact ⟨by decide, by rfl⟩

/-- C2 amended: for every malformed CIDR string (one the parser rejects),
scan performs no host probe and returns the empty list — the parse error is
caught by scan's own except handler and is not surfaced to the caller, while
the spec-modelled Scan would report InvalidSubnet. -/
theorem C2_malformed_subnet_swallowed (s : String) (t : Nat) (world : ProbeWorld)
    (h : ip_network s = none) :
    NetworkScanner.scan s t world = [] ∧ probedHosts s = [] ∧
    scanSpecInvalidSubnet s t world = Except.error ("InvalidSubnet") := by
  unfold NetworkScanner.scan probedHosts scanSpecInvalidSubnet
  rw [h]
  exact ⟨rfl, rfl, rfl⟩

/-- C2 witness: the amended statement at the concrete input "not-a-subnet". -/
theorem C2_malformed_subnet_swallowed_witness :
    NetworkScanner.scan ("not-a-subnet") 1 worldAllDead = [] ∧
    probedHosts ("not-a-subnet") = [] ∧
    scanSpecInvalidSubnet ("not-a-subnet") 1 worldAllDead =
      Except.error ("InvalidSubnet") :=
  C2_malformed_subnet_swallowed ("not-a-subnet") 1 worldAllDead (by decide)

/-! # Claim C7 (corrected) -/

/-- C7 counterexample: the claim says Scan enumerates exactly the usable
hosts excluding the network and broadcast addresses; on the valid CIDR block
10.0.0.1/32 the code probes the single address 10.0.0.1 (= 167772161) while
the exclude-network-and-broadcast reading enumerates nothing. -/
theorem C7_counterexample :
    probedHosts ("10.0.0.1/32") = [167772161] ∧
    specScanEnumeration ("10.0.0.1/32") = [] ∧
    ¬ probedHosts ("10.0.0.1/32") = specScanEnumeration ("10.0.0.1/32") := by
  exact ⟨by decide, by decide, by decide⟩

/-- C7 amended: for every valid CIDR block of prefix length at most 30, scan
enumerates exactly the spec's usable host addresses (network and broadcast
excluded) truncated to the first 254; for a /31 it enumerates both addresses
and for a /32 the single address, which the spec's exclusion would rule
out. -/
theorem C7_usable_hosts_enumeration (s : String) (net : IPv4Net)
    (h : ip_network s = some net) :
    (net.prefixLen ≤ 30 → probedHosts s = (usableHostsSpec net).take 254) ∧
    (net.prefixLen = 31 → probedHosts s = [net.base, net.base + 1]) ∧
    (net.prefixLen = 32 → probedHosts s = [net.base]) := by
  rw [probedHosts_eq s net h]
  refine ⟨?_, ?_, ?_⟩
  · intro hp
    unfold hostsList usableHostsSpec
    rw [if_neg (by omega), if_neg (by omega)]
  · intro hp
    unfold hostsList
    rw [if_neg (by omega), if_pos hp]
    exact List.take_of_length_le (by simp)
  · intro hp
    unfold hostsList
    rw [if_pos hp]
    exact List.take_of_length_le (by simp)

/-- C7 witness: the amended statement at 192.168.1.0/24, whose 254 usable
hosts the code enumerates exactly. -/
theorem C7_usable_hosts_enumeration_witness :
    probedHosts ("192.168.1.0/24") =
      (usableHostsSpec { base := 3232235776, prefixLen := 24 }).take 254 :=
  (C7_usable_hosts_enumeration ("192.168.1.0/24")
    { base := 3232235776, prefixLen := 24 } (by decide)).1 (by decide)

/-! # Claim C9 (corrected) -/

theorem foldl_max_ge_init (l : List Nat) : ∀ n, n ≤ l.foldl max n := by
  induction l with
  | nil => intro n; simp [List.foldl]
  | cons x t ih =>
    intro n
    simp only [List.foldl_cons]
    exact le_trans (Nat.le_max_left n x) (ih (max n x))

theorem maxInFlight_eq_one_of_ne_nil (hs : List Nat) (h : hs ≠ []) :
    maxInFlight (hs.flatMap fun x => [ProbeEvent.start x, ProbeEvent.finish x]) = 1 := by
  refine le_antisymm (foldl_max_le_one _ (inFlight_le_one hs) 0 (by omega)) ?_
  cases hs with
  | nil => exact absurd rfl h
  | cons a t =>
    unfold maxInFlight
    simp only [List.flatMap_cons, List.cons_append, List.nil_append, inFlightList,
      List.foldl_cons]
    have h1 : max (max 0 (0 + 1)) (0 + 1 - 1) = 1 := by omega
    rw [h1]
    exact foldl_max_ge_init _ 1

theorem hosts24_length : (probedHosts ("192.168.1.0/24")).length = 254 := by
  rw [probedHosts_eq ("192.168.1.0/24") { base := 3232235776, prefixLen := 24 } (by decide)]
  simp [hostsList, List.length_take]

/-- C9 counterexample: the claim says probing is not strictly sequential (a
worker pool keeps several probes in flight, finishing a /24 in roughly
timeout * 254 / poolSize); on 192.168.1.0/24 the scan loop never has two
probes in flight and pays the full sequential cost 254 * timeout. -/
theorem C9_counterexample :
    maxInFlight (scanTrace ("192.168.1.0/24")) = 1 ∧
    scanCost ("192.168.1.0/24") 1 = 254 ∧
    ¬ 2 ≤ maxInFlight (scanTrace ("192.168.1.0/24")) := by
  have hm : maxInFlight (scanTrace ("192.168.1.0/24")) = 1 := by
    unfold scanTrace
    refine maxInFlight_eq_one_of_ne_nil _ ?_
    intro hnil
    have := hosts24_length
    rw [hnil] at this
    simp at this
  refine ⟨hm, ?_, by omega⟩
  simp [scanCost, hosts24_length]

/-- C9 amended: host probing is strictly sequential — at most one probe is
ever in flight (there is no worker pool) — so a /24 scan costs
timeout * 254 wall-clock under the unit-cost model, not
timeout * 254 / poolSize. -/
theorem C9_sequential_probing (s : String) (t : Nat) :
    maxInFlight (scanTrace s) ≤ 1 ∧
    (∀ net, ip_network s = some net → net.prefixLen = 24 → scanCost s t = 254 * t) := by
  constructor
  · unfold maxInFlight scanTrace
    exact foldl_max_le_one _ (inFlight_le_one (probedHosts s)) 0 (by omega)
  · intro net h hp
    unfold scanCost
    rw [probedHosts_eq s net h]
    unfold hostsList
    rw [hp]
    rw [if_neg (by omega), if_neg (by omega)]
    simp [List.length_take]

/-- C9 witness: the amended statement at 192.168.1.0/24 with timeout 1. -/
theorem C9_sequential_probing_witness :
    maxInFlight (scanTrace ("192.168.1.0/24")) ≤ 1 ∧
    scanCost ("192.168.1.0/24") 1 = 254 * 1 :=
  ⟨(C9_sequential_probing ("192.168.1.0/24") 1).1,
   (C9_sequential_probing ("192.168.1.0/24") 1).2
     { base := 3232235776, prefixLen := 24 } (by decide) (by decide)⟩

/-! # Claim C10 (confirmed) -/

/-- C10: NetworkScanner.scan always returns a plain list — a malformed
subnet is caught and yields [], the result is exactly the per-host filterMap
over the probed hosts for every oracle behaviour, an exception inside the
ping subprocess yields liveness false, and an exception inside the
neighbor-table queries yields an absent hardware address instead of
propagating. -/
theorem C10_scan_never_raises (subnet : String) (t : Nat) (world : ProbeWorld) :
    (ip_network subnet = none → NetworkScanner.scan subnet t world = []) ∧
    (NetworkScanner.scan subnet t world =
      ((probedHosts subnet).map ipToString).filterMap (scanHost world t)) ∧
    (∀ ip e, world.pingRun ip t = Except.error e → ping_host world t ip = false) ∧
    (∀ ip e, world.windows = false → world.ipNeighOut ip = Except.error e →
      get_mac_address world ip = none) ∧
    (∀ ip e, world.windows = true → world.arpAOut ip = Except.error e →
      get_mac_address world ip = none) := by
  refine ⟨?_, ?_, ?_, ?_, ?_⟩
  · intro h
    unfold NetworkScanner.scan
    rw [h]
  · unfold NetworkScanner.scan probedHosts
    cases ip_network subnet <;> simp
  · intro ip e h
    unfold ping_host
    rw [h]
  · intro ip e hw h
    simp [get_mac_address, hw, h]
  · intro ip e hw h
    simp [get_mac_address, hw, h]

/-- C10 witness: the safety conjuncts at a hostile world where every external
call raises and a malformed subnet. -/
theorem C10_scan_never_raises_witness :
    NetworkScanner.scan ("not-a-subnet") 1 worldAllError = [] ∧
    ping_host worldAllError 1 ("192.168.1.5") = false ∧
    get_mac_address worldAllError ("192.168.1.5") = none :=
  ⟨(C10_scan_never_raises ("not-a-subnet") 1 worldAllError).1 (by decide),
   (C10_scan_never_raises ("not-a-subnet") 1 worldAllError).2.2.1 ("192.168.1.5")
     ("TimeoutExpired") (by rfl),
   (C10_scan_never_raises ("not-a-subnet") 1 worldAllError).2.2.2.1 ("192.168.1.5")
     ("FileNotFoundError") (by rfl) (by rfl)⟩

/-! # Claim C6 (confirmed) -/

theorem processAssignment_notifications (env : OverdueEnv) (retries : Nat)
    (st : TaskState) (a : Assignment) (u v : OverdueUser)
    (hby : a.assigned_by = some u) (hto : a.assigned_to = some v) :
    (processAssignment env retries st a).notifications =
      st.notifications ++
        [{ user := u.username, message := overdueMessage a v, link := assignmentLink a,
           level := "ALERT" },
         { user := v.username, message := overdueMessage a v, link := assignmentLink a,
           level := "WARNING" }] ∧
    (processAssignment env retries st a).notifications_created =
      st.notifications_created + 2 := by
  unfold processAssignment
  rw [hto, hby]
  simp only [notifyUser, createdAudit]
  constructor <;> (repeat' split) <;> simp [Nat.add_assoc]

/-- C6: for an open assignment with a past due timestamp, one run of the
overdue check creates exactly two Notification rows — an ALERT for the
assigning custodian and a WARNING for the holding custodian — for every mail
environment (so regardless of email availability or delivery outcome), and
reports the assignment in its overdue count; moreover every processing of
that assignment, whatever the task state, appends exactly those two rows. -/
theorem C6_two_notifications (env : OverdueEnv) (now : Nat) (a : Assignment)
    (u v : OverdueUser) (hby : a.assigned_by = some u) (hto : a.assigned_to = some v)
    (hdue : isOverdue now a = true) :
    (check_overdue_assignments env [a] now).notifications =
      [{ user := u.username, message := overdueMessage a v, link := assignmentLink a,
         level := "ALERT" },
       { user := v.username, message := overdueMessage a v, link := assignmentLink a,
         level := "WARNING" }] ∧
    (check_overdue_assignments env [a] now).notifications_created = 2 ∧
    (check_overdue_assignments env [a] now).overdue_count = 1 ∧
    (∀ env₂ retries₂ st₂, (processAssignment env₂ retries₂ st₂ a).notifications =
      st₂.notifications ++
        [{ user := u.username, message := overdueMessage a v, link := assignmentLink a,
           level := "ALERT" },
         { user := v.username, message := overdueMessage a v, link := assignmentLink a,
           level := "WARNING" }]) := by
  have key := fun (env₂ : OverdueEnv) (r₂ : Nat) (st₂ : TaskState) =>
    processAssignment_notifications env₂ r₂ st₂ a u v hby hto
  unfold check_overdue_assignments taskRun
  rw [List.filter_cons_of_pos (by exact hdue), List.filter_nil]
  simp only [List.foldl_cons, List.foldl_nil, List.length_cons, List.length_nil]
  refine ⟨?_, ?_, by trivial, fun env₂ r₂ st₂ => (key env₂ r₂ st₂).1⟩
  · rw [(key env 0 ⟨[], [], 0, 0⟩).1]
    simp
  · rw [(key env 0 ⟨[], [], 0, 0⟩).2]

/-- C6 witness: the statement at a concrete overdue assignment with both
custodians present and mail unconfigured. -/
theorem C6_two_notifications_witness :
    (check_overdue_assignments envNoMail [assignmentOne] 10).notifications =
      [{ user := userManager.username, message := overdueMessage assignmentOne userHolder,
         link := assignmentLink assignmentOne, level := "ALERT" },
       { user := userHolder.username, message := overdueMessage assignmentOne userHolder,
         link := assignmentLink assignmentOne, level := "WARNING" }] ∧
    (check_overdue_assignments envNoMail [assignmentOne] 10).notifications_created = 2 ∧
    (check_overdue_assignments envNoMail [assignmentOne] 10).overdue_count = 1 :=
  ⟨(C6_two_notifications envNoMail 10 assignmentOne userManager userHolder (by rfl) (by rfl)
      (by decide)).1,
   (C6_two_notifications envNoMail 10 assignmentOne userManager userHolder (by rfl) (by rfl)
      (by decide)).2.1,
   (C6_two_notifications envNoMail 10 assignmentOne userManager userHolder (by rfl) (by rfl)
      (by decide)).2.2.1⟩

/-! # Claim C1 (code_bug) -/

/-- C1: with mail configured and delivery raising on every attempt, a run of
the overdue job sends zero emails and continues to the next assignment and
still returns its aggregate result — but the single AuditLog row written per
failing assignment describes an "Unexpected error" (the celery Retry raised
by self.retry, which the inner try — catching only MaxRetriesExceededError —
lets escape into the per-assignment except Exception), not the exhausted
retries the claim describes: the retry bound is never exercised because the
swallowed Retry also prevents the worker from ever re-invoking the task, and
the "Created N notifications" audit row is skipped for those assignments. -/
theorem C1_retry_swallowed_eval :
    (check_overdue_assignments envFailMail [assignmentOne, assignmentTwo]
        10).email_notifications = 0 ∧
    (check_overdue_assignments envFailMail [assignmentOne, assignmentTwo] 10).audits.map
        AuditRec.description =
      ["Unexpected error in overdue task: Retry",
       "Unexpected error in overdue task: Retry"] ∧
    (check_overdue_assignments envFailMail [assignmentOne, assignmentTwo]
        10).overdue_count = 2 ∧
    (check_overdue_assignments envFailMail [assignmentOne, assignmentTwo]
        10).notifications_created = 4 := by
  exact ⟨by decide, by decide, by decide, by decide⟩

/-! # Reconciliation machinery: uniqueness of the MAC lookup -/

theorem macsDistinct_cons {a : Asset} {l : List Asset}
    (h : macsDistinct (a :: l) = true) :
    (∀ b ∈ l, macClash a b = false) ∧ macsDistinct l = true := by
  unfold macsDistinct at h
  rw [Bool.and_eq_true, List.all_eq_true] at h
  exact ⟨fun b hb => by simpa using h.1 b hb, h.2⟩

theorem macClash_of_iexact {b c : Asset} {s : String} (hb : macIexact b s = true)
    (hc : macIexact c s = true) : macClash b c = true := by
  unfold macIexact at hb hc
  unfold macClash
  cases hmb : b.mac_address with
  | none => rw [hmb] at hb; cases hb
  | some sb =>
    cases hmc : c.mac_address with
    | none => rw [hmc] at hc; cases hc
    | some sc =>
      rw [hmb] at hb
      rw [hmc] at hc
      unfold iexactEq at hb hc ⊢
      simp only [beq_iff_eq] at hb hc ⊢
      rw [hb, hc]

theorem iexact_unique {l : List Asset} {s : String} (hd : macsDistinct l = true) :
    ∀ b ∈ l, ∀ c ∈ l, macIexact b s = true → macIexact c s = true → b = c := by
  induction l with
  | nil => intro b hb; cases hb
  | cons x t ih =>
    intro b hb c hc hbs hcs
    obtain ⟨hcl, hdt⟩ := macsDistinct_cons hd
    rcases List.mem_cons.mp hb with hbx | hbt
    · rcases List.mem_cons.mp hc with hcx | hct
      · rw [hbx, hcx]
      · subst hbx
        exact absurd (macClash_of_iexact hbs hcs) (by simp [hcl c hct])
    · rcases List.mem_cons.mp hc with hcx | hct
      · subst hcx
        exact absurd (macClash_of_iexact hcs hbs) (by simp [hcl b hbt])
      · exact ih hdt b hbt c hct hbs hcs

theorem filter_iexact_single {l : List Asset} {s : String} {a : Asset}
    (hd : macsDistinct l = true) (ha : a ∈ l) (hs : macIexact a s = true) :
    l.filter (fun b => macIexact b s) = [a] := by
  induction l with
  | nil => cases ha
  | cons x t ih =>
    obtain ⟨hcl, hdt⟩ := macsDistinct_cons hd
    by_cases hx : macIexact x s = true
    · have hxa : x = a := iexact_unique hd x (List.mem_cons_self x t) a ha hx hs
      subst hxa
      rw [List.filter_cons, if_pos hx]
      congr 1
      rw [List.filter_eq_nil_iff]
      intro b hb hbs
      exact absurd (macClash_of_iexact hx hbs) (by simp [hcl b hb])
    · have hat : a ∈ t := by
        rcases List.mem_cons.mp ha with rfl | h
        · exact absurd hs hx
        · exact h
      rw [List.filter_cons, if_neg hx]
      exact ih hdt hat

theorem getByMac_found {l : List Asset} {s : String} {a : Asset}
    (hd : macsDistinct l = true) (ha : a ∈ l) (hs : macIexact a s = true) :
    getByMacIexact l s = GetResult.found a := by
  unfold getByMacIexact
  rw [filter_iexact_single hd ha hs]

theorem getByMac_none {l : List Asset} {s : String}
    (h : ∀ b ∈ l, macIexact b s = false) : getByMacIexact l s = GetResult.doesNotExist := by
  unfold getByMacIexact
  rw [List.filter_eq_nil_iff.mpr (fun b hb => by simp [h b hb])]

theorem iexact_cases (l : List Asset) (s : String) :
    (∀ b ∈ l, macIexact b s = false) ∨ ∃ a, a ∈ l ∧ macIexact a s = true := by
  by_cases h : ∃ a ∈ l, macIexact a s = true
  · right
    obtain ⟨a, ha, hs⟩ := h
    exact ⟨a, ha, hs⟩
  · left
    intro b hb
    by_contra hc
    exact h ⟨b, hb, by simpa using hc⟩

/-! # Field-preservation lemmas -/

theorem macIexact_congr {b c : Asset} (h : b.mac_address = c.mac_address) (s : String) :
    macIexact b s = macIexact c s := by
  unfold macIexact
  rw [h]

theorem resultMatches_congr {b c : Asset} (h : b.mac_address = c.mac_address)
    (r : ScanResult) : resultMatches b r = resultMatches c r := by
  unfold resultMatches
  cases r.mac_address with
  | none => rfl
  | some s =>
    show (!s.isEmpty && macIexact b s) = (!s.isEmpty && macIexact c s)
    rw [macIexact_congr h]

theorem matchedBy_congr {b c : Asset} (h : b.mac_address = c.mac_address)
    (rs : List ScanResult) : matchedBy rs b = matchedBy rs c := by
  unfold matchedBy
  congr 1
  funext r
  exact resultMatches_congr h r

theorem applyStep_mac (r : ScanResult) (now : Nat) (b : Asset) :
    (applyStep r now b).mac_address = b.mac_address := by
  unfold applyStep
  split <;> rfl

theorem applyStep_id (r : ScanResult) (now : Nat) (b : Asset) :
    (applyStep r now b).id = b.id := by
  unfold applyStep
  split <;> rfl

theorem applyStep_status (r : ScanResult) (now : Nat) (b : Asset) :
    (applyStep r now b).status =
      if b.status == ("MISSING") && resultMatches b r then ("AVAILABLE") else b.status := by
  by_cases h : resultMatches b r = true
  · by_cases hst : b.status == ("MISSING")
    · simp [applyStep, reconUpdate, h, hst]
    · simp [applyStep, reconUpdate, h, hst]
  · simp [applyStep, h]

theorem macsDistinct_map {l : List Asset} {f : Asset → Asset}
    (hf : ∀ b, (f b).mac_address = b.mac_address) (hd : macsDistinct l = true) :
    macsDistinct (l.map f) = true := by
  induction l with
  | nil => rfl
  | cons x t ih =>
    obtain ⟨hcl, hdt⟩ := macsDistinct_cons hd
    rw [List.map_cons]
    unfold macsDistinct
    rw [Bool.and_eq_true, List.all_eq_true]
    refine ⟨?_, ih hdt⟩
    intro b hb
    obtain ⟨c, hc, rfl⟩ := List.mem_map.mp hb
    have hcc : macClash (f x) (f c) = macClash x c := by
      unfold macClash
      rw [hf x, hf c]
    simp [hcc, hcl c hc]

theorem idsNodup_map {l : List Asset} {f : Asset → Asset}
    (hf : ∀ b, (f b).id = b.id) (hn : (l.map (fun b => b.id)).Nodup) :
    ((l.map f).map (fun b => b.id)).Nodup := by
  rw [List.map_map]
  have h : ((fun b => b.id) ∘ f) = fun (b : Asset) => b.id := funext fun b => hf b
  rw [h]
  exact hn

theorem replace_eq_map_applyStep {l : List Asset} {a : Asset} {r : ScanResult} {s : String}
    {now : Nat} (hd : macsDistinct l = true) (hn : (l.map (fun b => b.id)).Nodup)
    (ha : a ∈ l) (hia : macIexact a s = true) (hmac : r.mac_address = some s)
    (hse : s.isEmpty = false) :
    (l.map fun b => if b.id == a.id then reconUpdate a r now else b) =
      l.map (applyStep r now) := by
  have hres_a : resultMatches a r = true := by
    unfold resultMatches
    rw [hmac]
    simp [hse, hia]
  apply List.map_congr_left
  intro b hb
  by_cases hid : b.id = a.id
  · have hba : b = a := List.inj_on_of_nodup_map hn hb ha hid
    subst hba
    rw [if_pos (by simp)]
    unfold applyStep
    rw [if_pos hres_a]
  · have hbs : macIexact b s = false := by
      by_contra hc
      have hbs' : macIexact b s = true := by simpa using hc
      exact hid (congrArg Asset.id (iexact_unique hd b hb a ha hbs' hia))
    have hbm : resultMatches b r = false := by
      unfold resultMatches
      rw [hmac]
      simp [hbs]
    rw [if_neg (by simpa using hid)]
    unfold applyStep
    rw [if_neg (by simp [hbm])]

/-! # Pointwise behaviour of one reconciliation pass -/

theorem applyResults_nil (now : Nat) (a : Asset) : applyResults [] now a = a := rfl

theorem applyResults_cons (r : ScanResult) (rs : List ScanResult) (now : Nat) (a : Asset) :
    applyResults (r :: rs) now a = applyResults rs now (applyStep r now a) := rfl

theorem matchedBy_cons (r : ScanResult) (rs : List ScanResult) (a : Asset) :
    matchedBy (r :: rs) a = (resultMatches a r || matchedBy rs a) := by
  unfold matchedBy
  rw [List.any_cons]

theorem applyResults_mac (rs : List ScanResult) (now : Nat) (a : Asset) :
    (applyResults rs now a).mac_address = a.mac_address := by
  induction rs generalizing a with
  | nil => rfl
  | cons r rs ih => rw [applyResults_cons, ih, applyStep_mac]

theorem applyResults_id (rs : List ScanResult) (now : Nat) (a : Asset) :
    (applyResults rs now a).id = a.id := by
  induction rs generalizing a with
  | nil => rfl
  | cons r rs ih => rw [applyResults_cons, ih, applyStep_id]

theorem applyStep_no_match {r : ScanResult} {b : Asset} (now : Nat)
    (h : resultMatches b r = false) : applyStep r now b = b := by
  unfold applyStep
  rw [if_neg (by simp [h])]

theorem applyResults_unmatched {rs : List ScanResult} {a : Asset} (now : Nat)
    (h : matchedBy rs a = false) : applyResults rs now a = a := by
  induction rs with
  | nil => rfl
  | cons r rs ih =>
    rw [matchedBy_cons, Bool.or_eq_false_iff] at h
    rw [applyResults_cons, applyStep_no_match now h.1]
    exact ih h.2

theorem reconUpdate_status_eq (a : Asset) (r : ScanResult) (now : Nat) :
    (reconUpdate a r now).status =
      if a.status == ("MISSING") then ("AVAILABLE") else a.status := rfl

theorem applyResults_status (rs : List ScanResult) (now : Nat) (a : Asset) :
    (applyResults rs now a).status =
      if a.status == ("MISSING") && matchedBy rs a then ("AVAILABLE") else a.status := by
  induction rs generalizing a with
  | nil => simp [applyResults_nil, matchedBy]
  | cons r rs ih =>
    rw [applyResults_cons, ih, matchedBy_congr (applyStep_mac r now a) rs,
      applyStep_status, matchedBy_cons]
    have hAM : (("AVAILABLE") == ("MISSING")) = false := by decide
    by_cases hst : (a.status == ("MISSING")) = true
    · by_cases hm : resultMatches a r = true
      · simp [hst, hm, hAM]
      · simp [hst, hm]
    · have hst' : (a.status == ("MISSING")) = false := by simpa using hst
      by_cases hm : resultMatches a r = true
      · simp [hst', hm]
      · simp [hst', hm]

theorem applyStep_last_seen_of_match {r : ScanResult} {b : Asset} (now : Nat)
    (h : resultMatches b r = true) : (applyStep r now b).network_last_seen = some now := by
  unfold applyStep
  rw [if_pos h]
  rfl

theorem applyResults_last_seen {rs : List ScanResult} {a : Asset} (now : Nat)
    (h : matchedBy rs a = true) : (applyResults rs now a).network_last_seen = some now := by
  induction rs generalizing a with
  | nil => simp [matchedBy] at h
  | cons r rs ih =>
    rw [applyResults_cons]
    by_cases hm : matchedBy rs (applyStep r now a) = true
    · exact ih hm
    · have hm' : matchedBy rs (applyStep r now a) = false := by simpa using hm
      rw [applyResults_unmatched now hm']
      have hrs : matchedBy rs a = false := by
        rw [← matchedBy_congr (applyStep_mac r now a) rs]
        exact hm'
      rw [matchedBy_cons, hrs, Bool.or_false] at h
      exact applyStep_last_seen_of_match now h

theorem reconUpdate_location_stable {b : Asset} (r : ScanResult) (now : Nat)
    (h : (b.status == ("MISSING")) = false) : (reconUpdate b r now).location = b.location := by
  unfold reconUpdate
  simp [h]

theorem applyResults_location_stable {rs : List ScanResult} {a : Asset} (now : Nat)
    (h : (a.status == ("MISSING")) = false) :
    (applyResults rs now a).location = a.location := by
  induction rs generalizing a with
  | nil => rfl
  | cons r rs ih =>
    rw [applyResults_cons]
    by_cases hm : resultMatches a r = true
    · have hkeep : (reconUpdate a r now).status = a.status := by
        rw [reconUpdate_status_eq, if_neg (by simp [h])]
      have h2 : ((reconUpdate a r now).status == ("MISSING")) = false := by
        rw [hkeep]
        exact h
      have hstep : applyStep r now a = reconUpdate a r now := by
        unfold applyStep
        rw [if_pos hm]
      rw [hstep]
      calc (applyResults rs now (reconUpdate a r now)).location
          = (reconUpdate a r now).location := ih h2
        _ = a.location := reconUpdate_location_stable r now h
    · rw [applyStep_no_match now (by simpa using hm)]
      exact ih h

theorem applyResults_location_missing {rs : List ScanResult} {a : Asset} {r₀ : ScanResult}
    (now : Nat) (hst : (a.status == ("MISSING")) = true)
    (hfind : rs.find? (fun x => resultMatches a x) = some r₀) :
    (applyResults rs now a).location = ("Detected on network: ") ++ r₀.ip_address ∧
    (applyResults rs now a).status = ("AVAILABLE") := by
  induction rs generalizing a with
  | nil => cases hfind
  | cons r rs ih =>
    by_cases hm : resultMatches a r = true
    · have hr₀ : r = r₀ := by
        rw [List.find?_cons] at hfind
        simpa [hm] using hfind
      subst hr₀
      have hstep : applyStep r now a = reconUpdate a r now := by
        unfold applyStep
        rw [if_pos hm]
      have hloc1 : (reconUpdate a r now).location = ("Detected on network: ") ++ r.ip_address := by
        unfold reconUpdate
        simp [hst]
      have hstAv : (reconUpdate a r now).status = ("AVAILABLE") := by
        rw [reconUpdate_status_eq, if_pos hst]
      have hst1 : ((reconUpdate a r now).status == ("MISSING")) = false := by
        rw [hstAv]
        decide
      rw [applyResults_cons, hstep]
      refine ⟨?_, ?_⟩
      · rw [applyResults_location_stable now hst1, hloc1]
      · rw [applyResults_status]
        simp [hst1, hstAv]
    · have hm' : resultMatches a r = false := by simpa using hm
      have hfind' : rs.find? (fun x => resultMatches a x) = some r₀ := by
        rw [List.find?_cons] at hfind
        simpa [hm'] using hfind
      rw [applyResults_cons, applyStep_no_match now hm']
      exact ih hst hfind'

theorem applyStep_ip_of_match {r : ScanResult} {b : Asset} (now : Nat)
    (h : resultMatches b r = true) : (applyStep r now b).ip_address = some r.ip_address := by
  unfold applyStep
  rw [if_pos h]
  rfl

theorem applyResults_ip {rs : List ScanResult} {a : Asset} (now : Nat)
    (h : matchedBy rs a = true) :
    ∃ x, x ∈ rs ∧ resultMatches a x = true ∧
      (applyResults rs now a).ip_address = some x.ip_address := by
  induction rs generalizing a with
  | nil => simp [matchedBy] at h
  | cons r rs ih =>
    rw [applyResults_cons]
    by_cases hm2 : matchedBy rs (applyStep r now a) = true
    · obtain ⟨x, hx, hxm, hip⟩ := ih hm2
      rw [resultMatches_congr (applyStep_mac r now a) x] at hxm
      exact ⟨x, List.mem_cons_of_mem _ hx, hxm, hip⟩
    · have hm2' : matchedBy rs (applyStep r now a) = false := by simpa using hm2
      rw [applyResults_unmatched now hm2']
      have hrs : matchedBy rs a = false := by
        rw [← matchedBy_congr (applyStep_mac r now a) rs]
        exact hm2'
      rw [matchedBy_cons, hrs, Bool.or_false] at h
      exact ⟨r, List.mem_cons_self _ _, h, applyStep_ip_of_match now h⟩

/-! # Characterization of the scan_and_update_assets loop -/

theorem any_congr_of_mac {f : Asset → Bool}
    (hf : ∀ b c : Asset, b.mac_address = c.mac_address → f b = f c) :
    ∀ {l₁ l₂ : List Asset},
      l₁.map (fun b => b.mac_address) = l₂.map (fun b => b.mac_address) →
      l₁.any f = l₂.any f := by
  intro l₁
  induction l₁ with
  | nil =>
    intro l₂ h
    cases l₂ with
    | nil => rfl
    | cons y t => simp at h
  | cons x t ih =>
    intro l₂ h
    cases l₂ with
    | nil => simp at h
    | cons y t₂ =>
      simp only [List.map_cons, List.cons.injEq] at h
      rw [List.any_cons, List.any_cons, ih h.2, hf x y h.1]

theorem countP_missing_split {s : String} {r : ScanResult} (now : Nat) (rs : List ScanResult)
    (hmac : r.mac_address = some s) (hse : s.isEmpty = false) :
    ∀ (l : List Asset) (a : Asset), macsDistinct l = true → a ∈ l → macIexact a s = true →
    l.countP (fun b => b.status == ("MISSING") && matchedBy (r :: rs) b) =
      (if a.status == ("MISSING") then 1 else 0) +
      l.countP (fun b =>
        (applyStep r now b).status == ("MISSING") && matchedBy rs (applyStep r now b)) := by
  intro l
  induction l with
  | nil => intro a _ ha _; cases ha
  | cons x t ih =>
    intro a hd ha hia
    obtain ⟨hcl, hdt⟩ := macsDistinct_cons hd
    rw [List.countP_cons, List.countP_cons]
    have hAM : (("AVAILABLE") == ("MISSING")) = false := by decide
    by_cases hx : macIexact x s = true
    · have hxa : x = a := iexact_unique hd x (List.mem_cons_self x t) a ha hx hia
      subst hxa
      have ht : ∀ b ∈ t, resultMatches b r = false := by
        intro b hb
        have hbs : macIexact b s = false := by
          by_contra hc
          have hbs' : macIexact b s = true := by simpa using hc
          have hclash := macClash_of_iexact hx hbs'
          simp [hcl b hb] at hclash
        unfold resultMatches
        rw [hmac]
        simp [hbs]
      have hxr : resultMatches x r = true := by
        unfold resultMatches
        rw [hmac]
        simp [hse, hx]
      have hteq : t.countP (fun b => b.status == ("MISSING") && matchedBy (r :: rs) b) =
          t.countP (fun b => (applyStep r now b).status == ("MISSING") &&
            matchedBy rs (applyStep r now b)) := by
        apply List.countP_congr
        intro b hb
        rw [applyStep_no_match now (ht b hb), matchedBy_cons, ht b hb]
        simp
      rw [hteq]
      have hhead1 : (x.status == ("MISSING") && matchedBy (r :: rs) x) =
          (x.status == ("MISSING")) := by
        rw [matchedBy_cons, hxr]
        simp
      have hhead2 : ((applyStep r now x).status == ("MISSING") &&
          matchedBy rs (applyStep r now x)) = false := by
        rw [applyStep_status]
        by_cases hst : (x.status == ("MISSING")) = true
        · rw [if_pos (by simp [hst, hxr]), hAM]
          simp
        · have hst' : (x.status == ("MISSING")) = false := by simpa using hst
          rw [if_neg (by simp [hst']), hst']
          simp
      rw [hhead1, hhead2]
      by_cases hst : (x.status == ("MISSING")) = true
      · simp [hst]
        try omega
      · have hst' : (x.status == ("MISSING")) = false := by simpa using hst
        simp [hst']
        try omega
    · have hat : a ∈ t := by
        rcases List.mem_cons.mp ha with h1 | h1
        · rw [h1] at hia
          exact absurd hia hx
        · exact h1
      have hxf : macIexact x s = false := by simpa using hx
      have hbm : resultMatches x r = false := by
        unfold resultMatches
        rw [hmac]
        simp [hxf]
      have hhead : (x.status == ("MISSING") && matchedBy (r :: rs) x) =
          ((applyStep r now x).status == ("MISSING") && matchedBy rs (applyStep r now x)) := by
        rw [applyStep_no_match now hbm, matchedBy_cons, hbm]
        simp
      rw [hhead, ih a hdt hat hia]
      omega

theorem reconLoop_char (now : Nat) :
    ∀ (rs : List ScanResult) (st : ReconState),
      macsDistinct st.assets = true → (st.assets.map (fun b => b.id)).Nodup →
      ∃ fin : ReconState,
        reconLoop now st rs = Except.ok fin ∧
        fin.assets = st.assets.map (applyResults rs now) ∧
        fin.found_missing = st.found_missing +
          st.assets.countP (fun b => b.status == ("MISSING") && matchedBy rs b) ∧
        fin.matched = st.matched +
          rs.countP (fun x => st.assets.any (fun b => resultMatches b x)) := by
  intro rs
  induction rs with
  | nil =>
    intro st hd hn
    refine ⟨st, rfl, ?_, ?_, ?_⟩
    · have h1 : st.assets.map (applyResults [] now) = st.assets.map (fun b => b) :=
        List.map_congr_left (fun b _ => rfl)
      rw [h1, List.map_id']
    · simp [matchedBy]
    · simp
  | cons r rs ih =>
    intro st hd hn
    have hskip :
        reconStep now st r = Except.ok { st with results := st.results ++ [r] } →
        (∀ b ∈ st.assets, resultMatches b r = false) →
        ∃ fin : ReconState,
          reconLoop now st (r :: rs) = Except.ok fin ∧
          fin.assets = st.assets.map (applyResults (r :: rs) now) ∧
          fin.found_missing = st.found_missing +
            st.assets.countP (fun b => b.status == ("MISSING") && matchedBy (r :: rs) b) ∧
          fin.matched = st.matched +
            (r :: rs).countP (fun x => st.assets.any (fun b => resultMatches b x)) := by
      intro hstep hnom
      obtain ⟨fin, hloop, hassets, hfm, hmt⟩ :=
        ih { st with results := st.results ++ [r] } hd hn
      refine ⟨fin, ?_, ?_, ?_, ?_⟩
      · show reconLoop now st (r :: rs) = Except.ok fin
        unfold reconLoop
        rw [hstep]
        exact hloop
      · rw [hassets]
        show st.assets.map (applyResults rs now) = st.assets.map (applyResults (r :: rs) now)
        apply List.map_congr_left
        intro b hb
        rw [applyResults_cons, applyStep_no_match now (hnom b hb)]
      · rw [hfm]
        show st.found_missing +
            st.assets.countP (fun b => b.status == ("MISSING") && matchedBy rs b) =
          st.found_missing +
            st.assets.countP (fun b => b.status == ("MISSING") && matchedBy (r :: rs) b)
        congr 1
        apply List.countP_congr
        intro b hb
        rw [matchedBy_cons, hnom b hb]
        simp
      · rw [hmt]
        show st.matched + rs.countP (fun x => st.assets.any (fun b => resultMatches b x)) =
          st.matched + (r :: rs).countP (fun x => st.assets.any (fun b => resultMatches b x))
        rw [List.countP_cons]
        have hany : (st.assets.any fun b => resultMatches b r) = false := by
          rw [← Bool.not_eq_true]
          rw [List.any_eq_true]
          rintro ⟨b, hb, hbr⟩
          rw [hnom b hb] at hbr
          cases hbr
        rw [hany]
        simp
    cases hcase : r.mac_address with
    | none =>
      refine hskip ?_ ?_
      · simp [reconStep, hcase]
      · intro b _
        simp [resultMatches, hcase]
    | some s =>
      by_cases hse : s.isEmpty = true
      · refine hskip ?_ ?_
        · simp [reconStep, hcase, hse]
        · intro b _
          simp [resultMatches, hcase, hse]
      · have hse' : s.isEmpty = false := by simpa using hse
        rcases iexact_cases st.assets s with hnone | ⟨a, ha, hia⟩
        · refine hskip ?_ ?_
          · simp [reconStep, hcase, hse', getByMac_none hnone]
          · intro b hb
            simp [resultMatches, hcase, hnone b hb]
        · have hres_a : resultMatches a r = true := by
            unfold resultMatches
            rw [hcase]
            simp [hse', hia]
          have hrepl : (st.assets.map fun b => if b.id == a.id then reconUpdate a r now else b)
              = st.assets.map (applyStep r now) :=
            replace_eq_map_applyStep hd hn ha hia hcase hse'
          have hstep : reconStep now st r = Except.ok
              { assets := st.assets.map (applyStep r now)
                matched := st.matched + 1
                found_missing := st.found_missing +
                  (if a.status == ("MISSING") then 1 else 0)
                results := st.results ++
                  [{ r with asset_found := true, asset_id := some a.id,
                            asset_tag := some a.asset_tag }] } := by
            simp only [reconStep, hcase, hse', getByMac_found hd ha hia, Bool.false_eq_true,
              if_false, Except.ok.injEq]
            rw [hrepl]
          have hd₂ : macsDistinct (st.assets.map (applyStep r now)) = true :=
            macsDistinct_map (applyStep_mac r now) hd
          have hn₂ : ((st.assets.map (applyStep r now)).map (fun b => b.id)).Nodup :=
            idsNodup_map (applyStep_id r now) hn
          obtain ⟨fin, hloop, hassets, hfm, hmt⟩ := ih
            { assets := st.assets.map (applyStep r now)
              matched := st.matched + 1
              found_missing := st.found_missing + (if a.status == ("MISSING") then 1 else 0)
              results := st.results ++
                [{ r with asset_found := true, asset_id := some a.id,
                          asset_tag := some a.asset_tag }] } hd₂ hn₂
          refine ⟨fin, ?_, ?_, ?_, ?_⟩
          · show reconLoop now st (r :: rs) = Except.ok fin
            unfold reconLoop
            rw [hstep]
            exact hloop
          · rw [hassets]
            show (st.assets.map (applyStep r now)).map (applyResults rs now) =
              st.assets.map (applyResults (r :: rs) now)
            rw [List.map_map]
            exact List.map_congr_left (fun b _ => rfl)
          · rw [hfm]
            show st.found_missing + (if a.status == ("MISSING") then 1 else 0) +
                (st.assets.map (applyStep r now)).countP
                  (fun b => b.status == ("MISSING") && matchedBy rs b) =
              st.found_missing +
                st.assets.countP (fun b => b.status == ("MISSING") && matchedBy (r :: rs) b)
            rw [List.countP_map]
            have hsplit := countP_missing_split now rs hcase hse' st.assets a hd ha hia
            rw [hsplit]
            have hcomp : (st.assets.countP
                ((fun b => b.status == ("MISSING") && matchedBy rs b) ∘ applyStep r now)) =
                st.assets.countP (fun b => (applyStep r now b).status == ("MISSING") &&
                  matchedBy rs (applyStep r now b)) := rfl
            rw [hcomp]
            omega
          · rw [hmt]
            show st.matched + 1 + rs.countP (fun x =>
                (st.assets.map (applyStep r now)).any fun b => resultMatches b x) =
              st.matched + (r :: rs).countP (fun x => st.assets.any fun b => resultMatches b x)
            have hmaceq : (st.assets.map (applyStep r now)).map (fun b => b.mac_address) =
                st.assets.map (fun b => b.mac_address) := by
              rw [List.map_map]
              exact List.map_congr_left (fun b _ => applyStep_mac r now b)
            have hcnt : rs.countP (fun x =>
                (st.assets.map (applyStep r now)).any fun b => resultMatches b x) =
                rs.countP (fun x => st.assets.any fun b => resultMatches b x) := by
              apply List.countP_congr
              intro x _
              rw [any_congr_of_mac (fun b c hbc => resultMatches_congr hbc x) hmaceq]
            rw [hcnt, List.countP_cons]
            have hany : (st.assets.any fun b => resultMatches b r) = true :=
              List.any_eq_true.mpr ⟨a, ha, hres_a⟩
            rw [hany]
            simp
            try omega

theorem reconcileResults_char (assets : List Asset) (results : List ScanResult) (now : Nat)
    (hd : macsDistinct assets = true) (hn : (assets.map (fun b => b.id)).Nodup) :
    ∃ out : ReconOutcome,
      reconcileResults assets results now = Except.ok out ∧
      out.assets = assets.map (applyResults results now) ∧
      out.missing_found =
        assets.countP (fun b => b.status == ("MISSING") && matchedBy results b) ∧
      out.matched = results.countP (fun x => assets.any (fun b => resultMatches b x)) := by
  obtain ⟨fin, hloop, hassets, hfm, hmt⟩ := reconLoop_char now results
    { assets := assets, matched := 0, found_missing := 0, results := [] } hd hn
  refine ⟨⟨fin.assets, fin.results.length, fin.matched, fin.found_missing, fin.results⟩,
    ?_, hassets, ?_, ?_⟩
  · unfold reconcileResults
    rw [hloop]
  · rw [hfm]
    simp
  · rw [hmt]
    simp

/-! # Claim C3 (confirmed) -/

/-- C3: the reconciliation pass is idempotent with respect to status and the
recovered counter — under the registry invariants (case-insensitively unique
hardware addresses, unique primary keys), re-applying the same ScanResult set
succeeds again, yields the same per-asset statuses, and reports zero
newly-recovered assets. -/
theorem C3_reconciliation_idempotent (assets : List Asset) (results : List ScanResult)
    (now₁ now₂ : Nat) (hd : macsDistinct assets = true)
    (hn : (assets.map (fun b => b.id)).Nodup) :
    ∃ o₁ o₂ : ReconOutcome,
      reconcileResults assets results now₁ = Except.ok o₁ ∧
      reconcileResults o₁.assets results now₂ = Except.ok o₂ ∧
      o₂.assets.map (fun b => (b.id, b.status)) = o₁.assets.map (fun b => (b.id, b.status)) ∧
      o₂.missing_found = 0 := by
  obtain ⟨o₁, h₁, ha₁, hm₁, hx₁⟩ := reconcileResults_char assets results now₁ hd hn
  have hd₂ : macsDistinct o₁.assets = true := by
    rw [ha₁]
    exact macsDistinct_map (fun b => applyResults_mac results now₁ b) hd
  have hn₂ : (o₁.assets.map (fun b => b.id)).Nodup := by
    rw [ha₁]
    exact idsNodup_map (fun b => applyResults_id results now₁ b) hn
  obtain ⟨o₂, h₂, ha₂, hm₂, hx₂⟩ := reconcileResults_char o₁.assets results now₂ hd₂ hn₂
  refine ⟨o₁, o₂, h₁, h₂, ?_, ?_⟩
  · rw [ha₂, List.map_map]
    apply List.map_congr_left
    intro b hb
    show ((applyResults results now₂ b).id, (applyResults results now₂ b).status) =
      (b.id, b.status)
    rw [applyResults_id, applyResults_status]
    rw [ha₁] at hb
    obtain ⟨c, hc, rfl⟩ := List.mem_map.mp hb
    by_cases hmm : matchedBy results (applyResults results now₁ c) = true
    · have hmc : matchedBy results c = true := by
        rw [← matchedBy_congr (applyResults_mac results now₁ c) results]
        exact hmm
      have hstf : ((applyResults results now₁ c).status == ("MISSING")) = false := by
        rw [applyResults_status]
        by_cases hcm : (c.status == ("MISSING")) = true
        · rw [if_pos (by simp [hcm, hmc])]
          decide
        · have hcm' : (c.status == ("MISSING")) = false := by simpa using hcm
          rw [if_neg (by simp [hcm'])]
          exact hcm'
      simp [hstf]
    · have hmm' : matchedBy results (applyResults results now₁ c) = false := by
        simpa using hmm
      simp [hmm']
  · rw [hm₂, List.countP_eq_zero]
    intro b hb
    rw [ha₁] at hb
    obtain ⟨c, hc, rfl⟩ := List.mem_map.mp hb
    intro hp
    rw [Bool.and_eq_true] at hp
    obtain ⟨hp1, hp2⟩ := hp
    have hmc : matchedBy results c = true := by
      rw [← matchedBy_congr (applyResults_mac results now₁ c) results]
      exact hp2
    rw [applyResults_status] at hp1
    by_cases hcm : (c.status == ("MISSING")) = true
    · rw [if_pos (by simp [hcm, hmc])] at hp1
      exact absurd hp1 (by decide)
    · have hcm' : (c.status == ("MISSING")) = false := by simpa using hcm
      rw [if_neg (by simp [hcm'])] at hp1
      exact absurd hp1 (by simp [hcm'])

/-! # Claim C4 (confirmed) -/

/-- C4: a ScanResult whose hardware address matches (case-insensitively) a
MISSING asset makes reconciliation flip that asset to AVAILABLE, overwrite
its location with a marker containing the observed network address (the first
matching result's address), and count it exactly once in the recovered
counter: the counter equals one for this asset plus the count over the other
rows only. -/
theorem C4_missing_asset_recovered (assets : List Asset) (results : List ScanResult)
    (now : Nat) (a : Asset) (r₀ : ScanResult) (hd : macsDistinct assets = true)
    (hn : (assets.map (fun b => b.id)).Nodup) (ha : a ∈ assets)
    (hst : a.status = "MISSING")
    (hfind : results.find? (fun x => resultMatches a x) = some r₀) :
    ∃ out : ReconOutcome,
      reconcileResults assets results now = Except.ok out ∧
      applyResults results now a ∈ out.assets ∧
      (applyResults results now a).id = a.id ∧
      (applyResults results now a).status = "AVAILABLE" ∧
      (applyResults results now a).location = ("Detected on network: ") ++ r₀.ip_address ∧
      (∃ pre post, (applyResults results now a).location = pre ++ r₀.ip_address ++ post) ∧
      out.missing_found = 1 + (assets.erase a).countP
        (fun b => b.status == ("MISSING") && matchedBy results b) := by
  obtain ⟨out, hout, hassets, hfm, hx⟩ := reconcileResults_char assets results now hd hn
  have hstb : (a.status == ("MISSING")) = true := by simp [hst]
  obtain ⟨hloc, hav⟩ := applyResults_location_missing now hstb hfind
  have hmatched : matchedBy results a = true := by
    unfold matchedBy
    rw [List.any_eq_true]
    exact ⟨r₀, List.mem_of_find?_eq_some hfind, List.find?_some hfind⟩
  refine ⟨out, hout, ?_, applyResults_id results now a, hav, hloc, ?_, ?_⟩
  · rw [hassets]
    exact List.mem_map_of_mem _ ha
  · refine ⟨("Detected on network: "), (""), ?_⟩
    rw [hloc]
    exact (String.append_empty _).symm
  · rw [hfm, (List.perm_cons_erase ha).countP_eq, List.countP_cons]
    simp [hstb, hmatched]
    try omega

/-! # Claim C8 (confirmed) -/

/-- C8: a ScanResult matching an asset currently in MAINTENANCE or RETIRED
makes reconciliation refresh the last-seen timestamp and the network address
(to one of the observed addresses) while leaving the status and the location
unchanged. -/
theorem C8_terminal_status_untouched (assets : List Asset) (results : List ScanResult)
    (now : Nat) (a : Asset) (hd : macsDistinct assets = true)
    (hn : (assets.map (fun b => b.id)).Nodup) (ha : a ∈ assets)
    (hst : a.status = "MAINTENANCE" ∨ a.status = "RETIRED")
    (hm : matchedBy results a = true) :
    ∃ out : ReconOutcome,
      reconcileResults assets results now = Except.ok out ∧
      applyResults results now a ∈ out.assets ∧
      (applyResults results now a).id = a.id ∧
      (applyResults results now a).status = a.status ∧
      (applyResults results now a).location = a.location ∧
      (applyResults results now a).network_last_seen = some now ∧
      ∃ x, x ∈ results ∧ resultMatches a x = true ∧
        (applyResults results now a).ip_address = some x.ip_address := by
  obtain ⟨out, hout, hassets, hfm, hx⟩ := reconcileResults_char assets results now hd hn
  have hstf : (a.status == ("MISSING")) = false := by
    rcases hst with h | h <;> simp [h]
  refine ⟨out, hout, ?_, applyResults_id results now a, ?_,
    applyResults_location_stable now hstf, applyResults_last_seen now hm,
    applyResults_ip now hm⟩
  · rw [hassets]
    exact List.mem_map_of_mem _ ha
  · rw [applyResults_status, hstf]
    simp

/-! # The scan_network command loop: C5 machinery -/

theorem macClash_congr {b b' c c' : Asset} (hb : b.mac_address = b'.mac_address)
    (hc : c.mac_address = c'.mac_address) : macClash b c = macClash b' c' := by
  unfold macClash
  rw [hb, hc]

theorem all_notClash_congr {x y : Asset} (hxy : x.mac_address = y.mac_address) :
    ∀ {t t₂ : List Asset},
      t.map (fun b => b.mac_address) = t₂.map (fun b => b.mac_address) →
      t.all (fun b => !macClash x b) = t₂.all (fun b => !macClash y b) := by
  intro t
  induction t with
  | nil =>
    intro t₂ h
    cases t₂ with
    | nil => rfl
    | cons z t₃ => simp at h
  | cons z t₃ ih =>
    intro t₂ h
    cases t₂ with
    | nil => simp at h
    | cons w t₄ =>
      simp only [List.map_cons, List.cons.injEq] at h
      rw [List.all_cons, List.all_cons, ih h.2, macClash_congr hxy h.1]

theorem macsDistinct_congr :
    ∀ {l₁ l₂ : List Asset},
      l₁.map (fun b => b.mac_address) = l₂.map (fun b => b.mac_address) →
      macsDistinct l₁ = macsDistinct l₂ := by
  intro l₁
  induction l₁ with
  | nil =>
    intro l₂ h
    cases l₂ with
    | nil => rfl
    | cons y t => simp at h
  | cons x t ih =>
    intro l₂ h
    cases l₂ with
    | nil => simp at h
    | cons y t₂ =>
      simp only [List.map_cons, List.cons.injEq] at h
      unfold macsDistinct
      rw [ih h.2, all_notClash_congr h.1 h.2]

theorem replace_preserves_maps {l : List Asset} {a a' : Asset}
    (hmac : a'.mac_address = a.mac_address) (hid : a'.id = a.id)
    (hn : (l.map (fun b => b.id)).Nodup) (ha : a ∈ l) :
    ((l.map (fun b => if b.id == a.id then a' else b)).map (fun b => b.mac_address) =
      l.map (fun b => b.mac_address)) ∧
    ((l.map (fun b => if b.id == a.id then a' else b)).map (fun b => b.id) =
      l.map (fun b => b.id)) := by
  constructor <;>
  · rw [List.map_map]
    apply List.map_congr_left
    intro b hb
    simp only [Function.comp_apply]
    by_cases h : b.id = a.id
    · have hba : b = a := List.inj_on_of_nodup_map hn hb ha h
      subst hba
      rw [if_pos (by simp)]
      simp [hmac, hid]
    · rw [if_neg (by simpa using h)]

theorem handleLoop_append (now : Nat) (l₁ l₂ : List ScanResult) :
    ∀ st : HandleState, handleLoop now st (l₁ ++ l₂) =
      (match handleLoop now st l₁ with
       | Except.error e => Except.error e
       | Except.ok st' => handleLoop now st' l₂) := by
  induction l₁ with
  | nil => intro st; rfl
  | cons r rs ih =>
    intro st
    rw [List.cons_append]
    cases hstep : handleStep now st r with
    | error e => simp [handleLoop, hstep]
    | ok st' =>
      simp [handleLoop, hstep]
      exact ih st'

theorem handleLoop_affine (now : Nat) :
    ∀ (rs : List ScanResult) (A : List Asset) (c m mf : Nat),
      handleLoop now ⟨A, c, m, mf⟩ rs =
      (handleLoop now ⟨A, 0, 0, 0⟩ rs).map
        (fun t => ⟨t.assets, c + t.found_count, m + t.matched_count,
          mf + t.missing_found⟩) := by
  intro rs
  induction rs with
  | nil =>
    intro A c m mf
    simp [handleLoop, Except.map]
  | cons r rs ih =>
    intro A c m mf
    cases hmac : r.mac_address with
    | none =>
      show handleLoop now _ (r :: rs) = _
      unfold handleLoop
      simp only [handleStep, hmac]
      exact ih A c m mf
    | some s =>
      by_cases hse : s.isEmpty = true
      · show handleLoop now _ (r :: rs) = _
        unfold handleLoop
        simp only [handleStep, hmac, hse, if_true]
        exact ih A c m mf
      · have hse' : s.isEmpty = false := by simpa using hse
        cases hget : getByMacIexact A s with
        | multipleReturned =>
          show handleLoop now _ (r :: rs) = _
          unfold handleLoop
          simp only [handleStep, hmac, hse', Bool.false_eq_true, if_false, hget]
          rfl
        | doesNotExist =>
          show handleLoop now _ (r :: rs) = _
          unfold handleLoop
          simp only [handleStep, hmac, hse', Bool.false_eq_true, if_false, hget]
          rw [ih A (c + 1) m mf, ih A (0 + 1) 0 0]
          cases handleLoop now ⟨A, 0, 0, 0⟩ rs with
          | error e => rfl
          | ok t =>
            simp only [Except.map, Except.ok.injEq, HandleState.mk.injEq]
            refine ⟨trivial, by omega, by omega, by omega⟩
        | found a =>
          show handleLoop now _ (r :: rs) = _
          unfold handleLoop
          simp only [handleStep, hmac, hse', Bool.false_eq_true, if_false, hget]
          rw [ih (A.map (fun b => if b.id == a.id then handleUpdate a r now else b)) c
              (m + 1) (mf + (if a.status == ("MISSING") then 1 else 0)),
            ih (A.map (fun b => if b.id == a.id then handleUpdate a r now else b)) 0
              (0 + 1) (0 + (if a.status == ("MISSING") then 1 else 0))]
          cases handleLoop now
              ⟨A.map (fun b => if b.id == a.id then handleUpdate a r now else b), 0, 0, 0⟩
              rs with
          | error e => rfl
          | ok t =>
            simp only [Except.map, Except.ok.injEq, HandleState.mk.injEq]
            refine ⟨trivial, by omega, by omega, by omega⟩

theorem handleLoop_ok (now : Nat) :
    ∀ (rs : List ScanResult) (st : HandleState),
      macsDistinct st.assets = true → (st.assets.map (fun b => b.id)).Nodup →
      ∃ st', handleLoop now st rs = Except.ok st' ∧
        st'.assets.map (fun b => b.mac_address) = st.assets.map (fun b => b.mac_address) ∧
        st'.assets.map (fun b => b.id) = st.assets.map (fun b => b.id) := by
  intro rs
  induction rs with
  | nil => intro st hd hn; exact ⟨st, rfl, rfl, rfl⟩
  | cons r rs ih =>
    intro st hd hn
    cases hmac : r.mac_address with
    | none =>
      obtain ⟨st', h1, h2, h3⟩ := ih st hd hn
      refine ⟨st', ?_, h2, h3⟩
      unfold handleLoop
      simp only [handleStep, hmac]
      exact h1
    | some s =>
      by_cases hse : s.isEmpty = true
      · obtain ⟨st', h1, h2, h3⟩ := ih st hd hn
        refine ⟨st', ?_, h2, h3⟩
        unfold handleLoop
        simp only [handleStep, hmac, hse, if_true]
        exact h1
      · have hse' : s.isEmpty = false := by simpa using hse
        rcases iexact_cases st.assets s with hnone | ⟨a, ha, hia⟩
        · obtain ⟨st', h1, h2, h3⟩ := ih { st with found_count := st.found_count + 1 } hd hn
          refine ⟨st', ?_, h2, h3⟩
          unfold handleLoop
          simp only [handleStep, hmac, hse', Bool.false_eq_true, if_false,
            getByMac_none hnone]
          exact h1
        · have ha' : (handleUpdate a r now).mac_address = a.mac_address := rfl
          have ha'' : (handleUpdate a r now).id = a.id := rfl
          obtain ⟨hmmap, himap⟩ := replace_preserves_maps ha' ha'' hn ha
          have hd₂ : macsDistinct (st.assets.map (fun b =>
              if b.id == a.id then handleUpdate a r now else b)) = true := by
            rw [macsDistinct_congr hmmap]
            exact hd
          have hn₂ : ((st.assets.map (fun b =>
              if b.id == a.id then handleUpdate a r now else b)).map
                (fun b => b.id)).Nodup := by
            rw [himap]
            exact hn
          obtain ⟨st', h1, h2, h3⟩ := ih
            { assets := st.assets.map (fun b =>
                if b.id == a.id then handleUpdate a r now else b)
              found_count := st.found_count
              matched_count := st.matched_count + 1
              missing_found := st.missing_found +
                (if a.status == ("MISSING") then 1 else 0) } hd₂ hn₂
          refine ⟨st', ?_, by rw [h2]; exact hmmap, by rw [h3]; exact himap⟩
          unfold handleLoop
          simp only [handleStep, hmac, hse', Bool.false_eq_true, if_false,
            getByMac_found hd ha hia]
          exact h1

/-! # Claim C5 (confirmed) -/

/-- C5: a scan result whose (present) hardware address matches no asset is
counted once in the command's unmatched-device counter (found_count) and
mutates nothing: running the reconciliation loop with that result inserted
anywhere yields the same final asset rows and the same matched / recovered
counters as running it without, with found_count exactly one higher. -/
theorem C5_unknown_device_counted (assets : List Asset) (bef aft : List ScanResult)
    (now : Nat) (r : ScanResult) (s : String) (hd : macsDistinct assets = true)
    (hn : (assets.map (fun b => b.id)).Nodup) (hmac : r.mac_address = some s)
    (hse : s.isEmpty = false) (hnom : ∀ b ∈ assets, macIexact b s = false) :
    ∃ st st' : HandleState,
      handleScan assets (bef ++ aft) now = Except.ok st ∧
      handleScan assets (bef ++ r :: aft) now = Except.ok st' ∧
      st'.found_count = st.found_count + 1 ∧
      st'.assets = st.assets ∧
      st'.matched_count = st.matched_count ∧
      st'.missing_found = st.missing_found := by
  obtain ⟨st₀, hb, hbmac, hbid⟩ := handleLoop_ok now bef ⟨assets, 0, 0, 0⟩ hd hn
  obtain ⟨A₀, c₀, m₀, mf₀⟩ := st₀
  have hnom₀ : ∀ b ∈ A₀, macIexact b s = false := by
    intro b hb'
    have hmem : b.mac_address ∈ A₀.map (fun x => x.mac_address) :=
      List.mem_map_of_mem _ hb'
    rw [hbmac] at hmem
    obtain ⟨c, hc, hcm⟩ := List.mem_map.mp hmem
    have hbc : b.mac_address = c.mac_address := hcm.symm
    rw [macIexact_congr hbc s]
    exact hnom c hc
  have hd₀ : macsDistinct A₀ = true := by
    rw [macsDistinct_congr hbmac]
    exact hd
  have hn₀ : (A₀.map (fun b => b.id)).Nodup := by
    rw [hbid]
    exact hn
  obtain ⟨t, htz, htmac, htid⟩ := handleLoop_ok now aft ⟨A₀, 0, 0, 0⟩ hd₀ hn₀
  have hstep : handleStep now ⟨A₀, c₀, m₀, mf₀⟩ r = Except.ok ⟨A₀, c₀ + 1, m₀, mf₀⟩ := by
    simp [handleStep, hmac, hse, getByMac_none hnom₀]
  refine ⟨⟨t.assets, c₀ + t.found_count, m₀ + t.matched_count, mf₀ + t.missing_found⟩,
    ⟨t.assets, (c₀ + 1) + t.found_count, m₀ + t.matched_count, mf₀ + t.missing_found⟩,
    ?_, ?_, ?_, rfl, rfl, rfl⟩
  · unfold handleScan
    rw [handleLoop_append, hb]
    show handleLoop now ⟨A₀, c₀, m₀, mf₀⟩ aft = _
    rw [handleLoop_affine now aft A₀ c₀ m₀ mf₀, htz]
    rfl
  · unfold handleScan
    rw [handleLoop_append, hb]
    show handleLoop now ⟨A₀, c₀, m₀, mf₀⟩ (r :: aft) = _
    unfold handleLoop
    rw [hstep]
    show handleLoop now ⟨A₀, c₀ + 1, m₀, mf₀⟩ aft = _
    rw [handleLoop_affine now aft A₀ (c₀ + 1) m₀ mf₀, htz]
    rfl
  · show (c₀ + 1) + t.found_count = (c₀ + t.found_count) + 1
    omega

/-- C3 witness: idempotence at a concrete two-row registry and one matching
scan result. -/
theorem C3_reconciliation_idempotent_witness :
    ∃ o₁ o₂ : ReconOutcome,
      reconcileResults [assetMissing, assetMaint] [resultHitMissing] 5 = Except.ok o₁ ∧
      reconcileResults o₁.assets [resultHitMissing] 6 = Except.ok o₂ ∧
      o₂.assets.map (fun b => (b.id, b.status)) = o₁.assets.map (fun b => (b.id, b.status)) ∧
      o₂.missing_found = 0 :=
  C3_reconciliation_idempotent [assetMissing, assetMaint] [resultHitMissing] 5 6
    (by decide) (by decide)

/-- C4 witness: the MISSING asset recovered by a concrete case-insensitive
match. -/
theorem C4_missing_asset_recovered_witness :
    ∃ out : ReconOutcome,
      reconcileResults [assetMissing] [resultHitMissing] 7 = Except.ok out ∧
      applyResults [resultHitMissing] 7 assetMissing ∈ out.assets ∧
      (applyResults [resultHitMissing] 7 assetMissing).id = assetMissing.id ∧
      (applyResults [resultHitMissing] 7 assetMissing).status = "AVAILABLE" ∧
      (applyResults [resultHitMissing] 7 assetMissing).location =
        ("Detected on network: ") ++ resultHitMissing.ip_address ∧
      (∃ pre post, (applyResults [resultHitMissing] 7 assetMissing).location =
        pre ++ resultHitMissing.ip_address ++ post) ∧
      out.missing_found = 1 + ([assetMissing].erase assetMissing).countP
        (fun b => b.status == ("MISSING") && matchedBy [resultHitMissing] b) :=
  C4_missing_asset_recovered [assetMissing] [resultHitMissing] 7 assetMissing
    resultHitMissing (by decide) (by decide) (by decide) (by decide) (by decide)

/-- C5 witness: a concrete unknown device counted without any registry
mutation. -/
theorem C5_unknown_device_counted_witness :
    ∃ st st' : HandleState,
      handleScan [assetMissing] ([] ++ []) 8 = Except.ok st ∧
      handleScan [assetMissing] ([] ++ resultUnknown :: []) 8 = Except.ok st' ∧
      st'.found_count = st.found_count + 1 ∧
      st'.assets = st.assets ∧
      st'.matched_count = st.matched_count ∧
      st'.missing_found = st.missing_found :=
  C5_unknown_device_counted [assetMissing] [] [] 8 resultUnknown ("11:22:33:44:55:66")
    (by decide) (by decide) (by decide) (by decide) (by decide)

/-- C8 witness: a concrete MAINTENANCE asset matched by a scan result keeps
its status. -/
theorem C8_terminal_status_untouched_witness :
    ∃ out : ReconOutcome,
      reconcileResults [assetMaint] [resultHitMaint] 9 = Except.ok out ∧
      applyResults [resultHitMaint] 9 assetMaint ∈ out.assets ∧
      (applyResults [resultHitMaint] 9 assetMaint).id = assetMaint.id ∧
      (applyResults [resultHitMaint] 9 assetMaint).status = assetMaint.status ∧
      (applyResults [resultHitMaint] 9 assetMaint).location = assetMaint.location ∧
      (applyResults [resultHitMaint] 9 assetMaint).network_last_seen = some 9 ∧
      ∃ x, x ∈ [resultHitMaint] ∧ resultMatches assetMaint x = true ∧
        (applyResults [resultHitMaint] 9 assetMaint).ip_address = some x.ip_address :=
  C8_terminal_status_untouched [assetMaint] [resultHitMaint] 9 assetMaint
    (by decide) (by decide) (by decide) (Or.inl rfl) (by decide)
